import Mathlib

/-!  Verification development for the Med-RAG retrieval-augmented query server
(the Express backend in `server/index.js`).  JavaScript numbers are modelled as
real numbers, the 32-bit wrap-around of the bitwise operators as explicit
modular arithmetic on `Int`, fallible external calls (embedding model, LLM) as
explicit `Except` outcomes, and the process-wide mutable stores (document
registry, uploaded files, in-memory vector index) as explicit state values. -/

namespace MedRAG

/-- JavaScript `ToInt32`: wrap an integer to the signed 32-bit range, as the
bitwise operators (`<<`, `&`) do. -/
def toInt32 (x : Int) : Int := (x + 2 ^ 31) % 2 ^ 32 - 2 ^ 31

/-- The UTF-16 code units of one character, as JavaScript `charCodeAt` reads
the pieces of a string split with `split('')`. -/
def utf16Units (c : Char) : List Nat :=
  if c.toNat < 65536 then [c.toNat]
  else [55296 + (c.toNat - 65536) / 1024, 56320 + (c.toNat - 65536) % 1024]

/-- The UTF-16 code units of a string. -/
def codeUnits (s : String) : List Nat := (s.data.map utf16Units).flatten

/-- One step of the rolling hash of the embedding fallback:
`a = ((a << 5) - a) + b.charCodeAt(0); return a & a` in JavaScript 32-bit
signed semantics (`<<` and `&` each wrap through `ToInt32`). -/
def hashStep (a : Int) (c : Nat) : Int := toInt32 (toInt32 (a * 32) - a + c)

/-- `text.split('').reduce(..., 0)`: the 32-bit rolling hash of the text used
by the embedding fallback in `embedQuery`. -/
def hashJS (s : String) : Int := (codeUnits s).foldl hashStep 0

/-- `new Array(384).fill(0).map((_, i) => Math.sin(hash + i) * 0.1)`: the
deterministic pseudo-embedding produced when the primary model is unavailable
or threw. -/
noncomputable def fallbackEmbedding (text : String) : List ℝ :=
  (List.range 384).map fun (i : Nat) => Real.sin ((hashJS text : ℝ) + (i : ℝ)) * 0.1

/-- `embedQuery(text)`: the primary model output when the model is loaded and
did not throw, the deterministic fallback otherwise.  The primary outcome is
passed explicitly: `.ok v` when `embedder` returned the vector `v`, and
`.error ()` when `embedder` was `null` or its call threw (the `catch` path). -/
noncomputable def embedQuery (primary : Except Unit (List ℝ)) (text : String) : List ℝ :=
  match primary with
  | .ok v => v
  | .error _ => fallbackEmbedding text

/-- The accumulated `dotProduct` of the loop in `cosineSimilarity` (with equal
lengths, `dotList a a` is the accumulated `normA`, the squared norm). -/
def dotList (a b : List ℝ) : ℝ := (List.zipWith (fun x y => x * y) a b).sum

open Classical in
/-- `cosineSimilarity(vecA, vecB)`: `0` on length mismatch, `0` when either
accumulated squared norm is `0`, else `dot / (sqrt normA * sqrt normB)`. -/
noncomputable def cosineSimilarity (a b : List ℝ) : ℝ :=
  if a.length ≠ b.length then 0
  else if dotList a a = 0 ∨ dotList b b = 0 then 0
  else dotList a b / (Real.sqrt (dotList a a) * Real.sqrt (dotList b b))

/-- Chunk metadata as attached at indexing time:
`{ source, docId, isSystemDocument }`. -/
structure DocMetadata where
  docId : String
  isSystemDocument : Bool
  source : String
  deriving DecidableEq, Repr

/-- One record of the in-memory index `indexedDocuments`:
`{ content, embedding, metadata }`. -/
structure IndexedDoc where
  content : String
  embedding : List ℝ
  metadata : DocMetadata

/-- A chunk handed to `vectorStore.addDocuments`: `{ pageContent, metadata }`. -/
structure Chunk where
  pageContent : String
  metadata : DocMetadata

/-- A hit returned by `similaritySearch`: `{ pageContent, metadata }`. -/
structure SearchResult where
  pageContent : String
  metadata : DocMetadata
  deriving DecidableEq, Repr

/-- In-memory `vectorStore.addDocuments(docsToAdd)`: embed each chunk's text
and push `{ content, embedding, metadata }` onto `indexedDocuments`. -/
def addDocuments (embed : String → List ℝ) (store : List IndexedDoc)
    (docs : List Chunk) : List IndexedDoc :=
  store ++ docs.map fun d => ⟨d.pageContent, embed d.pageContent, d.metadata⟩

open Classical in
/-- Insert one scored record into a list already sorted by descending
similarity: the record goes before the first entry it ties with or beats.
Folded from the right over the original list (`sortDesc`) this is the stable
descending sort that `sort((a, b) => b.similarity - a.similarity)` performs. -/
noncomputable def insertDesc (x : IndexedDoc × ℝ) :
    List (IndexedDoc × ℝ) → List (IndexedDoc × ℝ)
  | [] => [x]
  | y :: ys => if y.2 ≤ x.2 then x :: y :: ys else y :: insertDesc x ys

/-- The stable descending sort of the scored records. -/
noncomputable def sortDesc (l : List (IndexedDoc × ℝ)) : List (IndexedDoc × ℝ) :=
  l.foldr insertDesc []

/-- In-memory `vectorStore.similaritySearch(query, k)`: embed the query, score
every stored record by cosine similarity against its stored embedding, sort by
descending similarity (stable), keep the first `k`, and return their
`{ pageContent, metadata }` views. -/
noncomputable def similaritySearch (embed : String → List ℝ) (store : List IndexedDoc)
    (query : String) (k : Nat) : List SearchResult :=
  ((sortDesc (store.map fun d => (d, cosineSimilarity (embed query) d.embedding))).take k).map
    fun p => ⟨p.1.content, p.1.metadata⟩

/-- `retrievalSettings`: the include-system flag and the optional allow-list of
document ids (`null`, here `none`, means no restriction). -/
structure RetrievalSettings where
  includeSystemDocuments : Bool
  allowedDocIds : Option (List String)

/-- The retrieval step of `app.post('/process-query')`:
`vectorStore.similaritySearch(query, 5)`.  The live `retrievalSettings` are in
scope at the call site but the handler never consults them. -/
noncomputable def processQueryRetrieve (embed : String → List ℝ)
    (settings : RetrievalSettings) (store : List IndexedDoc) (query : String) :
    List SearchResult :=
  similaritySearch embed store query 5

/-- One entry of `documentRegistry` (the fields the delete endpoint reads). -/
structure RegistryEntry where
  id : String
  name : String
  isSystemDocument : Bool
  path : String
  deriving DecidableEq, Repr

/-- The server state the delete endpoint touches: the document registry, the
files on disk under `uploads/` (by path), and the in-memory vector index. -/
structure ServerState where
  registry : List RegistryEntry
  files : List String
  index : List IndexedDoc

/-- Outcome of `DELETE /documents/:id`: `success` (200), `notFound` (404), or
`forbidden` (400, system policy document). -/
inductive DeleteResult
  | success
  | notFound
  | forbidden
  deriving DecidableEq, Repr

/-- `app.delete('/documents/:id')`: look the id up in the registry (404 when
absent), refuse system documents (400); otherwise unlink the file when it
exists, splice the found entry out of the registry, and drop every indexed
vector whose `metadata.docId` equals the id. -/
def deleteDocument (id : String) (st : ServerState) : DeleteResult × ServerState :=
  match st.registry.find? (fun d => d.id == id) with
  | none => (.notFound, st)
  | some doc =>
    if doc.isSystemDocument then (.forbidden, st)
    else
      (.success,
       { registry := st.registry.eraseP (fun d => d.id == id)
         files := st.files.filter (fun p => p != doc.path)
         index := st.index.filter (fun d => d.metadata.docId != id) })

/-- The typed fields extracted from a query:
`{ ageYears, ageMonths, procedure, location, policyAgeMonths }`.  A `none`
models both `null` and a non-finite value (the `Number.isFinite` guards in
`evaluatePolicyLogic` send both to the same branch). -/
structure StructuredQuery where
  ageYears : Option ℚ
  ageMonths : Option ℚ
  procedure : Option String
  location : Option String
  policyAgeMonths : Option ℚ
  deriving DecidableEq, Repr

/-- The decision component of the policy outcome. -/
inductive Decision
  | approved
  | rejected
  | requiresMoreInfo
  deriving DecidableEq, Repr

/-- `{ Decision, Amount }` as returned by `evaluatePolicyLogic`. -/
structure PolicyOutcome where
  decision : Decision
  amount : Option Nat
  deriving DecidableEq, Repr

/-- The hardcoded tier-1 city list of `evaluatePolicyLogic`. -/
def tier1 : List String := ["mumbai", "delhi", "bangalore", "kolkata", "chennai"]

/-- ASCII lowercasing of a string, as `toLowerCase()` acts on the inputs in
play. -/
def toLowerStr (s : String) : String := String.mk (s.data.map Char.toLower)

/-- ASCII lowercasing, character-list view. -/
def lowerChars (s : String) : List Char := s.data.map Char.toLower

/-- `evaluatePolicyLogic(structured)`: the deterministic policy rules, first
matching rule first. -/
def evaluatePolicyLogic (s : StructuredQuery) : PolicyOutcome :=
  if s.ageYears.any fun a => decide (a < 1 / 2) then ⟨.rejected, none⟩
  else if s.ageYears.any fun a => decide (a < 18 ∨ 60 < a) then ⟨.rejected, none⟩
  else if s.policyAgeMonths.any fun m => decide (m < 6) then ⟨.rejected, none⟩
  else if tier1.contains (toLowerStr (s.location.getD "")) then ⟨.approved, some 5000⟩
  else ⟨.approved, some 3000⟩

/-- Rule chain of claim C1, written from the claim text: known-and-below
test on an optional field. -/
def knownBelow (o : Option ℚ) (b : ℚ) : Bool :=
  match o with
  | some a => decide (a < b)
  | none => false

/-- Claim C1 text: known and outside the closed interval `[lo, hi]`. -/
def knownOutside (o : Option ℚ) (lo hi : ℚ) : Bool :=
  match o with
  | some a => decide (a < lo) || decide (hi < a)
  | none => false

/-- The policy evaluator as claim C1 words it: the four rules in precedence
order, first match winning; unknown fields never match a rejection rule. -/
def policySpecC1 (s : StructuredQuery) : PolicyOutcome :=
  if knownBelow s.ageYears (1 / 2) then ⟨.rejected, none⟩
  else if knownOutside s.ageYears 18 60 then ⟨.rejected, none⟩
  else if knownBelow s.policyAgeMonths 6 then ⟨.rejected, none⟩
  else if toLowerStr (s.location.getD "") ∈ tier1 then ⟨.approved, some 5000⟩
  else ⟨.approved, some 3000⟩

/-- The scanner behind `digitRuns`: one character at a time, the digits of
the current run accumulated in reverse. -/
def digitRunsAux : List Char → List Char → List (List Char)
  | acc, [] => if acc.isEmpty then [] else [acc.reverse]
  | acc, c :: rest =>
    if c.isDigit then digitRunsAux (c :: acc) rest
    else if acc.isEmpty then digitRunsAux [] rest
    else acc.reverse :: digitRunsAux [] rest

/-- Maximal runs of ASCII digits, left to right: `query.match(/\d+/g)`. -/
def digitRuns (cs : List Char) : List (List Char) := digitRunsAux [] cs

/-- Decimal value of a digit run, as `parseInt(run, 10)` reads it. -/
def natOfDigits (ds : List Char) : Nat := ds.foldl (fun a c => 10 * a + (c.toNat - 48)) 0

/-- `hay.includes(pat)`: substring test on character lists. -/
def substrB (pat : List Char) : List Char → Bool
  | [] => pat.isEmpty
  | c :: rest => pat.isPrefixOf (c :: rest) || substrB pat rest

/-- `basicHeuristicParse(query)`: the heuristic fallback extractor.  The first
digit run of the whole text feeds both `ageYears` (when `"year"` occurs
anywhere, lowercased) and `policyAgeMonths` (when `"month"` occurs anywhere);
`location` is the first gazetteer city occurring as a lowercase substring;
`procedure` prefers `knee`, then `hip`, then bare `surgery`. -/
def basicHeuristicParse (query : String) : StructuredQuery :=
  let numbers := digitRuns query.data
  let lower := lowerChars query
  let ageYears : Option ℚ :=
    match numbers.head? with
    | some run => if substrB ("year".data) lower then some (natOfDigits run) else none
    | none => none
  let policyAgeMonths : Option ℚ :=
    match numbers.head? with
    | some run => if substrB ("month".data) lower then some (natOfDigits run) else none
    | none => none
  let location := (["mumbai", "delhi", "bangalore", "kolkata", "chennai", "pune"]).find?
    fun l => substrB l.data lower
  let procedure :=
    if substrB ("knee".data) lower then some "knee surgery"
    else if substrB ("hip".data) lower then some "hip surgery"
    else if substrB ("surgery".data) lower then some "surgery"
    else none
  ⟨ageYears, none, procedure, location, policyAgeMonths⟩

/-- The scanner behind `firstNumFollowedBy`: the digits of the current run
are accumulated in reverse; when the run ends, the remaining text (spaces
skipped) must start with the wanted word. -/
def firstNumAux (pat : List Char) : List Char → List Char → Option Nat
  | acc, [] =>
    if !acc.isEmpty && pat.isEmpty then some (natOfDigits acc.reverse) else none
  | acc, c :: rest =>
    if c.isDigit then firstNumAux pat (c :: acc) rest
    else if !acc.isEmpty && pat.isPrefixOf ((c :: rest).dropWhile (fun x => x == ' ')) then
      some (natOfDigits acc.reverse)
    else firstNumAux pat [] rest

/-- Claim C7 text: the value of the first maximal digit run that is followed,
after spaces, by the given word — scanning the text left to right. -/
def firstNumFollowedBy (pat : List Char) (cs : List Char) : Option Nat :=
  firstNumAux pat [] cs

/-- Modelled from the spec: the chunking policy of the configured
`RecursiveCharacterTextSplitter({ chunkSize: 1000, chunkOverlap: 200 })`.  The
splitter implementation itself lives in the external `langchain` package and
is not part of this repository; the spec describes it as a fixed-size sliding
window over the raw character stream — window 1000 characters, overlap 200
(stride 800), windows covering the whole text with no gaps, only the final
window allowed to be shorter. -/
def chunkText (s : List Char) : List (List Char) :=
  if h : s.length ≤ 1000 then [s]
  else s.take 1000 :: chunkText (s.drop 800)
  termination_by s.length
  decreasing_by simp only [List.length_drop]; omega

/-- Concatenation with the 200-character overlaps removed: the first chunk
whole, each later chunk with its leading 200 characters dropped. -/
def reconstructChunks : List (List Char) → List Char
  | [] => []
  | c :: rest => c ++ (rest.map fun d => d.drop 200).flatten

/-- The fixed money keyword list of the query handler. -/
def moneyKeywords : List String :=
  ["amount", "cost", "price", "fee", "payout", "coverage", "limit", "maximum",
   "minimum", "pay", "paid", "payment", "claim amount", "benefit amount",
   "sum insured", "deductible", "premium"]

/-- `moneyKeywords.some(keyword => query.toLowerCase().includes(keyword))`. -/
def isMoneyQuestion (query : String) : Bool :=
  moneyKeywords.any fun k => substrB k.data (lowerChars query)

/-- JavaScript `\w`: ASCII letters, digits and underscore. -/
def wordChar (c : Char) : Bool := c.isAlpha || c.isDigit || c == '_'

/-- JavaScript `\s`, restricted to the whitespace in play. -/
def spaceChar (c : Char) : Bool := c == ' ' || c == '\t' || c == '\n' || c == '\r'

/-- The character class `[\d,]` of the amount regex. -/
def digitComma (c : Char) : Bool := c.isDigit || c == ','

/-- `\b` right after a word character: the remaining text must not start with
a word character. -/
def boundaryAfter : List Char → Bool
  | [] => true
  | c :: _ => !wordChar c

/-- Case-insensitive match of the word `w` (then an optional `s` when `optS`)
followed by a word boundary, at the head of `cs`; returns the count of
characters consumed.  Implements one alternative of
`(?:dollars?|rupees?|USD|INR)\b` under the `i` flag; the greedy optional `s`
cannot backtrack usefully, because refusing a present `s` leaves a word
character right after the base word. -/
def matchWord (w : List Char) (optS : Bool) (cs : List Char) : Option Nat :=
  if w.isPrefixOf (cs.map Char.toLower) then
    let rest := cs.drop w.length
    if optS && (rest.head?.map Char.toLower == some 's') then
      if boundaryAfter (rest.drop 1) then some (w.length + 1) else none
    else if boundaryAfter rest then some w.length else none
  else none

/-- The alternation `(?:dollars?|rupees?|USD|INR)\b`, alternatives tried in
order. -/
def matchCurrency (cs : List Char) : Option Nat :=
  (matchWord ("dollar".data) true cs).orElse fun _ =>
  (matchWord ("rupee".data) true cs).orElse fun _ =>
  (matchWord ("usd".data) false cs).orElse fun _ =>
  matchWord ("inr".data) false cs

/-- One attempt of the amount regex
`\$[\d,]+|₹[\d,]+|\b\d+[\d,]*\s*(?:dollars?|rupees?|USD|INR)\b` at the current
position, alternatives in order; `prevWord` says whether the character before
this position is a word character (the leading `\b` of the third
alternative).  Returns the matched text. -/
def matchMoneyAt (prevWord : Bool) (cs : List Char) : Option (List Char) :=
  match cs with
  | [] => none
  | c :: rest =>
    if c == '$' || c == '₹' then
      let run := rest.takeWhile digitComma
      if run.isEmpty then none else some (c :: run)
    else if !prevWord && c.isDigit then
      let run := (c :: rest).takeWhile digitComma
      let afterRun := (c :: rest).dropWhile digitComma
      let afterSp := afterRun.dropWhile spaceChar
      match matchCurrency afterSp with
      | some n => some (run ++ afterRun.takeWhile spaceChar ++ afterSp.take n)
      | none => none
    else none

/-- The scan of `match`: try each position left to right, leftmost match wins;
`prevWord` tracks the character before the current position. -/
def scanMoney (prevWord : Bool) : List Char → Option (List Char)
  | [] => none
  | c :: rest =>
    match matchMoneyAt prevWord (c :: rest) with
    | some m => some m
    | none => scanMoney (wordChar c) rest

/-- `(answer + ' ' + reasoning).match(regex)`, first match only (no `g`
flag). -/
def firstMoneyMatch (cs : List Char) : Option (List Char) := scanMoney false cs

/-- `parseInt(s)` on the digit-only residue: `NaN` (here `none`) when no
leading digit. -/
def parseIntJS (s : List Char) : Option Nat :=
  let ds := s.takeWhile Char.isDigit
  if ds.isEmpty then none else some (natOfDigits ds)

/-- `x || null` on the parsed amount: `NaN` and `0` both collapse to `null`. -/
def orNullJS (x : Option Nat) : Option Nat :=
  match x with
  | none => none
  | some v => if v == 0 then none else some v

/-- The parsed LLM answer fields the handler reads. -/
structure LLMRaw where
  answer : String
  decision : String
  reasoning : String
  deriving DecidableEq, Repr

/-- The response payload of `/process-query`: canonical fields plus the legacy
`Decision` / `Amount` / `Justification` aliases. -/
structure AnswerPayload where
  answer : String
  decision : String
  reasoning : String
  Decision : String
  Amount : Option Nat
  Justification : String
  deriving DecidableEq, Repr

/-- The amount computation of the success path: gated on money keywords, first
regex match over `answer + ' ' + reasoning`, strip `[$,₹]` then every
non-digit, then `parseInt(amountStr) || null`. -/
def synthAmount (query : String) (answer reasoning : String) : Option Nat :=
  if isMoneyQuestion query then
    match firstMoneyMatch ((answer ++ " " ++ reasoning).data) with
    | some m =>
      orNullJS (parseIntJS ((m.filter fun c => !(c == '$' || c == ',' || c == '₹')).filter
        fun c => c.isDigit))
    | none => none
  else none

/-- The fixed degraded payload built in the `catch` branch of the LLM call. -/
def fallbackPayload : AnswerPayload :=
  { answer := "Unable to process query at this time. Please try again."
    decision := "requires_more_info"
    reasoning := "Technical error occurred while analyzing policy documents."
    Decision := "requires_more_info"
    Amount := none
    Justification := "Technical error occurred while analyzing policy documents." }

/-- The answer-synthesis step of `/process-query`: the LLM call and all of its
post-processing sit inside one `try`; any failure (HTTP error, timeout, JSON
parse failure, missing required field) is the `.error` outcome and produces
the fixed degraded payload, never the raw transport error. -/
def synthesize (query : String) (outcome : Except Unit LLMRaw) : AnswerPayload :=
  match outcome with
  | .error _ => fallbackPayload
  | .ok raw =>
    { answer := raw.answer
      decision := raw.decision
      reasoning := raw.reasoning
      Decision := if raw.decision == "" then "requires_more_info" else raw.decision
      Amount := synthAmount query raw.answer raw.reasoning
      Justification :=
        if raw.reasoning == "" then "Response generated based on policy documents"
        else raw.reasoning }

/-- Claim C9 as amended: the value of the digits of the first regex match;
null when there is no match, the match holds no digit, or the value is `0`. -/
def amountPerAmendedClaim (cs : List Char) : Option Nat :=
  match firstMoneyMatch cs with
  | none => none
  | some m =>
    let ds := m.filter Char.isDigit
    if ds.isEmpty || natOfDigits ds == 0 then none else some (natOfDigits ds)

/-- Claim C7 as amended: the first digit run of the whole text feeds
`ageYears` whenever `"year"` occurs anywhere in the lowercased text and
`policyAgeMonths` whenever `"month"` occurs anywhere; `location` is the first
gazetteer city (in the fixed list order) occurring as a case-insensitive
substring; `procedure` prefers `knee`, then `hip`, then bare `surgery`. -/
def amendedParseC7 (query : String) : StructuredQuery :=
  let lower := lowerChars query
  let firstNum := (digitRuns query.data).head?.map natOfDigits
  { ageYears :=
      if substrB ("year".data) lower then firstNum.map (fun n => (n : ℚ)) else none
    ageMonths := none
    procedure :=
      if substrB ("knee".data) lower then some "knee surgery"
      else if substrB ("hip".data) lower then some "hip surgery"
      else if substrB ("surgery".data) lower then some "surgery"
      else none
    location := (["mumbai", "delhi", "bangalore", "kolkata", "chennai", "pune"]).find?
      fun l => substrB l.data lower
    policyAgeMonths :=
      if substrB ("month".data) lower then firstNum.map (fun n => (n : ℚ)) else none }

/-! ## Shared helper facts -/

/-- The fallback embedder: the primary model is unavailable or throwing. -/
noncomputable def embedF : String → List ℝ := embedQuery (.error ())

/-- The focus settings of claim C2: allow-list restricted to document `"1"`. -/
def focusSettings : RetrievalSettings := ⟨true, some ["1"]⟩

/-- A store holding exactly one chunk, belonging to document `"2"`. -/
noncomputable def storeDoc2 : List IndexedDoc :=
  addDocuments embedF [] [⟨"policy text", ⟨"2", false, "uploads/f2"⟩⟩]

/-- A concrete server state: one non-system document `"1"` with its file and
one indexed chunk. -/
def st1 : ServerState :=
  ⟨[⟨"1", "a.txt", false, "p1"⟩], ["p1"], [⟨"c", [], ⟨"1", false, "p1"⟩⟩]⟩

/-- Metadata of the first duplicate-text chunk. -/
def mdA : DocMetadata := ⟨"1", false, "uploads/a"⟩

/-- Metadata of the second duplicate-text chunk. -/
def mdB : DocMetadata := ⟨"2", false, "uploads/b"⟩

/-- A store with two chunks carrying the same text but different metadata. -/
noncomputable def storeDup : List IndexedDoc :=
  addDocuments embedF [] [⟨"heart surgery", mdA⟩, ⟨"heart surgery", mdB⟩]

/-! ## C1: the policy evaluator matches the claimed rule chain -/

/-- C1: `evaluatePolicyLogic` applies the four rules of the claim in
precedence order, first match winning — reject when the age is known and
below half a year, reject when the age is known and outside 18–60, reject
when the policy age is known and below 6 months, else approve with amount
5000 for a (case-insensitively) tier-1 location and 3000 otherwise; and
unknown numeric fields never by themselves cause rejection. -/
theorem evaluatePolicyLogic_matches_claim (s : StructuredQuery) :
    evaluatePolicyLogic s = policySpecC1 s ∧
    (s.ageYears = none → s.policyAgeMonths = none →
      (evaluatePolicyLogic s).decision = Decision.approved) := by
  constructor
  · unfold evaluatePolicyLogic policySpecC1 knownBelow knownOutside
    cases s.ageYears <;> cases s.policyAgeMonths <;>
      simp [Option.any, List.elem_eq_mem, Bool.decide_or, List.contains]
  · intro h1 h2
    unfold evaluatePolicyLogic
    rw [h1, h2]
    simp only [Option.any_none, Bool.false_eq_true, if_false]
    split <;> rfl

/-- Witness for C1 at the all-unknown query: the claimed equality holds and
the decision is `approved`. -/
theorem evaluatePolicyLogic_matches_claim_witness :
    evaluatePolicyLogic ⟨none, none, none, none, none⟩ =
      policySpecC1 ⟨none, none, none, none, none⟩ ∧
    (evaluatePolicyLogic ⟨none, none, none, none, none⟩).decision = Decision.approved :=
  ⟨(evaluatePolicyLogic_matches_claim _).1,
   (evaluatePolicyLogic_matches_claim _).2 rfl rfl⟩

/-! ## C8: LLM failure yields the fixed degraded payload -/

/-- C8: whenever the LLM call fails (HTTP error, timeout, JSON parse failure,
missing required field — all reaching the one `catch`), the synthesizer
returns the fixed degraded payload with decision `requires_more_info`, amount
null and the technical-error justification; the result type is a total
payload, so the transport error never reaches the caller. -/
theorem synthesize_degraded_on_failure (q : String) :
    synthesize q (.error ()) = fallbackPayload ∧
    (synthesize q (.error ())).Decision = "requires_more_info" ∧
    (synthesize q (.error ())).decision = "requires_more_info" ∧
    (synthesize q (.error ())).Amount = none ∧
    (synthesize q (.error ())).Justification =
      "Technical error occurred while analyzing policy documents." :=
  ⟨rfl, rfl, rfl, rfl, rfl⟩

/-! ## C10: delete mutates nothing on failure, removes everything on success -/

/-- C10: when `DELETE /documents/:id` fails — `notFound` for an id missing
from the registry, `forbidden` for a system document — the registry, the
on-disk files and the vector index are all left unchanged; on the success
path the found non-system entry is spliced out of the registry, its file is
removed, and every indexed vector carrying the document id is dropped. -/
theorem deleteDocument_state_changes (id : String) (st : ServerState) :
    ((deleteDocument id st).1 ≠ DeleteResult.success → (deleteDocument id st).2 = st) ∧
    ((deleteDocument id st).1 = DeleteResult.success →
      ∃ doc, st.registry.find? (fun d => d.id == id) = some doc ∧
        doc.isSystemDocument = false ∧
        (deleteDocument id st).2.registry = st.registry.eraseP (fun d => d.id == id) ∧
        (deleteDocument id st).2.files = st.files.filter (fun p => p != doc.path) ∧
        (deleteDocument id st).2.index = st.index.filter (fun d => d.metadata.docId != id) ∧
        ∀ d ∈ (deleteDocument id st).2.index, ¬ d.metadata.docId = id) := by
  rcases hf : st.registry.find? (fun d => d.id == id) with - | doc
  · unfold deleteDocument
    simp [hf]
  · by_cases hs : doc.isSystemDocument = true
    · unfold deleteDocument
      simp [hf, if_pos hs]
    · unfold deleteDocument
      simp only [hf, if_neg hs]
      refine ⟨fun h => absurd rfl h,
        fun _ => ⟨doc, rfl, by simpa using hs, by trivial, by trivial, by trivial, ?_⟩⟩
      intro d hd
      have hmem := List.of_mem_filter hd
      simpa using hmem

/-- Witness for C10: a concrete registry with one non-system document; a
delete of an absent id leaves the state unchanged, and the successful delete
of document `"1"` leaves the index with no vector of document `"1"`. -/
theorem deleteDocument_state_changes_witness :
    (deleteDocument "9" st1).2 = st1 ∧
    (deleteDocument "1" st1).2.index =
      st1.index.filter (fun d => d.metadata.docId != "1") := by
  constructor
  · exact (deleteDocument_state_changes "9" st1).1 (by simp [deleteDocument, st1])
  · obtain ⟨doc, -, -, -, -, hidx, -⟩ :=
      (deleteDocument_state_changes "1" st1).2 (by simp [deleteDocument, st1])
    exact hidx

/-! ## C2: the query pipeline never consults the allow-list -/

/-- C2 (failing input, code bug): with the retrieval allow-list restricted to
document `"1"`, the query pipeline still returns the indexed chunk of
document `"2"`: `app.post('/process-query')` calls
`vectorStore.similaritySearch(query, 5)` directly and never reads
`retrievalSettings.allowedDocIds`, so no post-filter restricts the search
results. -/
theorem processQueryRetrieve_ignores_allowlist :
    focusSettings.allowedDocIds = some ["1"] ∧
    processQueryRetrieve embedF focusSettings storeDoc2 "what does document 1 cover" =
      [⟨"policy text", ⟨"2", false, "uploads/f2"⟩⟩] := by
  exact ⟨rfl, rfl⟩

/-! ## C7: the heuristic extractor is not positional -/

/-- C7 (counterexample): in `"30 years and 6 months"` the first integer token
followed by `"month"` is `6`, yet `basicHeuristicParse` assigns the first
number of the whole text, `30`, to `policyAgeMonths` (and to `ageYears`):
the code checks only that the words `year` / `month` occur somewhere. -/
theorem basicHeuristicParse_counterexample :
    firstNumFollowedBy ("month".data) (lowerChars "30 years and 6 months") = some 6 ∧
    firstNumFollowedBy ("year".data) (lowerChars "30 years and 6 months") = some 30 ∧
    (basicHeuristicParse "30 years and 6 months").policyAgeMonths = some 30 ∧
    (basicHeuristicParse "30 years and 6 months").ageYears = some 30 := by
  refine ⟨by decide, by decide, by decide, by decide⟩

/-- C7 (amended): `basicHeuristicParse` equals the amended extractor — the
first integer token of the whole text (not the one adjacent to the unit word)
fills `ageYears` when `"year"` occurs anywhere and `policyAgeMonths` when
`"month"` occurs anywhere; gazetteer and procedure rules as claimed. -/
theorem basicHeuristicParse_amended (q : String) :
    basicHeuristicParse q = amendedParseC7 q := by
  unfold basicHeuristicParse amendedParseC7
  cases h : (digitRuns q.data).head? <;> simp [h]

/-! ## C9: amount extraction on the synthesis success path -/

/-- A digit is none of the stripped currency characters, so the two `replace`
passes keep exactly the digits of the match. -/
theorem digit_not_currency (c : Char) (hd : c.isDigit = true) :
    (c == '$' || c == ',' || c == '₹') = false := by
  have h1 : ¬ c = '$' := by rintro rfl; exact absurd hd (by decide)
  have h2 : ¬ c = ',' := by rintro rfl; exact absurd hd (by decide)
  have h3 : ¬ c = '₹' := by rintro rfl; exact absurd hd (by decide)
  simp [h1, h2, h3]

/-- Stripping `[$,₹]` and then every non-digit keeps exactly the digits. -/
theorem filter_currency_then_digits (m : List Char) :
    (m.filter fun c => !(c == '$' || c == ',' || c == '₹')).filter (fun c => c.isDigit) =
      m.filter Char.isDigit := by
  rw [List.filter_filter]
  apply List.filter_congr'
  intro c _
  by_cases hd : c.isDigit = true
  · rw [hd, digit_not_currency c hd]
    rfl
  · have hd2 : c.isDigit = false := by simpa using hd
    rw [hd2]
    rfl

/-- `takeWhile` keeps all of an already-filtered list. -/
theorem takeWhile_filter_self (p : Char → Bool) (l : List Char) :
    (l.filter p).takeWhile p = l.filter p := by
  induction l with
  | nil => rfl
  | cons c cs ih => by_cases h : p c <;> simp [List.filter_cons, h, ih]

/-- C9 (counterexample): for the money question `"What is the claim amount?"`
and an answer stating `$0`, the regex matches `$0`, whose extracted integer is
`0`, yet the code returns `Amount = null` — `parseInt(amountStr) || null`
collapses the extracted `0` to `null`, against the claim that the amount is
the integer extracted from the first match. -/
theorem synthAmount_counterexample :
    isMoneyQuestion ("What is the claim amount?") = true ∧
    firstMoneyMatch (("Approved with a payout of $0." ++ " " ++ "").data) =
      some ("$0".data) ∧
    natOfDigits (("$0".data).filter Char.isDigit) = 0 ∧
    (synthesize ("What is the claim amount?")
      (.ok ⟨"Approved with a payout of $0.", "approved", ""⟩)).Amount = none := by
  refine ⟨by decide, by decide, by decide, by decide⟩

/-- C9 (amended): without a money keyword in the query the returned `Amount`
is null regardless of the model output; with one, `Amount` is the value of
the digits of the first regex match over `answer + ' ' + reasoning`, except
that a match with no digit or with value `0` also yields null (and no match
yields null). -/
theorem synthAmount_amended (q : String) (raw : LLMRaw) :
    (isMoneyQuestion q = false → (synthesize q (.ok raw)).Amount = none) ∧
    (isMoneyQuestion q = true →
      (synthesize q (.ok raw)).Amount =
        amountPerAmendedClaim ((raw.answer ++ " " ++ raw.reasoning).data)) := by
  constructor
  · intro h
    show synthAmount q raw.answer raw.reasoning = none
    simp [synthAmount, h]
  · intro h
    show synthAmount q raw.answer raw.reasoning = _
    unfold synthAmount amountPerAmendedClaim
    rw [h]
    cases hm : firstMoneyMatch ((raw.answer ++ " " ++ raw.reasoning).data) with
    | none => simp
    | some m =>
      simp only [if_pos rfl]
      rw [filter_currency_then_digits]
      unfold parseIntJS orNullJS
      rw [takeWhile_filter_self]
      cases he : (m.filter Char.isDigit).isEmpty
      · simp only [he, Bool.false_eq_true, if_false, Bool.false_or]
        cases hz : (natOfDigits (m.filter Char.isDigit)) == 0 <;> simp [hz]
      · simp [he]

/-- Witness for the amended C9 at a concrete money question: the amount is
the value of the digits of the first match. -/
theorem synthAmount_amended_witness :
    isMoneyQuestion ("What is the cost?") = true ∧
    (synthesize ("What is the cost?")
        (.ok ⟨"It pays 250 dollars in total.", "approved", ""⟩)).Amount =
      amountPerAmendedClaim (("It pays 250 dollars in total." ++ " " ++ "").data) :=
  ⟨by decide, (synthAmount_amended _ _).2 (by decide)⟩

/-! ## C3: the deterministic embedding fallback -/

/-- `toInt32` lands in the signed 32-bit range. -/
theorem toInt32_bounds (x : Int) : -(2 ^ 31) ≤ toInt32 x ∧ toInt32 x < 2 ^ 31 := by
  unfold toInt32
  have h1 : 0 ≤ (x + 2 ^ 31) % 2 ^ 32 := Int.emod_nonneg _ (by norm_num)
  have h2 : (x + 2 ^ 31) % 2 ^ 32 < 2 ^ 32 := Int.emod_lt_of_pos _ (by norm_num)
  omega

/-- The rolling hash stays in the signed 32-bit range. -/
theorem foldl_hashStep_bounds (l : List Nat) (a : Int)
    (ha1 : -(2 ^ 31) ≤ a) (ha2 : a < 2 ^ 31) :
    -(2 ^ 31) ≤ l.foldl hashStep a ∧ l.foldl hashStep a < 2 ^ 31 := by
  induction l generalizing a with
  | nil => exact ⟨ha1, ha2⟩
  | cons c cs ih =>
    have hb := toInt32_bounds (toInt32 (a * 32) - a + c)
    exact ih (hashStep a c) hb.1 hb.2

/-- C3: when the primary model is unavailable or throws, `embedQuery` returns
the deterministic pseudo-embedding and no error reaches the caller (the
result is a plain vector): exactly 384 entries, the entry at `i < 384` being
`sin(hash + i) * 0.1` where `hash` is the 32-bit rolling hash of the text's
code units; the fallback is a pure function of the text, so identical texts
always give identical vectors. -/
theorem embedQuery_fallback (t : String) :
    embedQuery (.error ()) t = fallbackEmbedding t ∧
    (embedQuery (.error ()) t).length = 384 ∧
    (∀ i : Nat, i < 384 →
      (embedQuery (.error ()) t).getD i 0 = Real.sin ((hashJS t : ℝ) + (i : ℝ)) * 0.1) ∧
    -(2 ^ 31) ≤ hashJS t ∧ hashJS t < 2 ^ 31 := by
  have hlen : (fallbackEmbedding t).length = 384 := by
    unfold fallbackEmbedding
    rw [List.length_map, List.length_range]
  refine ⟨rfl, hlen, ?_, ?_, ?_⟩
  · intro i hi
    show (fallbackEmbedding t).getD i 0 = _
    unfold fallbackEmbedding
    rw [List.getD_eq_getElem?_getD, List.getElem?_map, List.getElem?_range hi]
    rfl
  · exact (foldl_hashStep_bounds _ 0 (by norm_num) (by norm_num)).1
  · exact (foldl_hashStep_bounds _ 0 (by norm_num) (by norm_num)).2

/-- Witness for C3 at the text `"knee surgery"` and index `0`. -/
theorem embedQuery_fallback_witness :
    (embedQuery (.error ()) ("knee surgery")).getD 0 0 =
      Real.sin ((hashJS ("knee surgery") : ℝ) + ((0 : Nat) : ℝ)) * 0.1 :=
  (embedQuery_fallback ("knee surgery")).2.2.1 0 (by decide)

/-! ## C6: the sliding-window chunker (modelled from the spec) -/

/-- The chunker always produces at least one window. -/
theorem chunkText_ne_nil (s : List Char) : chunkText s ≠ [] := by
  rw [chunkText]
  split <;> simp

/-- Dropping the 200-character overlap from every window and flattening gives
the text past its first 200 characters. -/
theorem flatten_drop200_chunkText (s : List Char) :
    ((chunkText s).map fun d => d.drop 200).flatten = s.drop 200 := by
  induction s using chunkText.induct with
  | case1 s h =>
    rw [chunkText, dif_pos h]
    simp
  | case2 s h ih =>
    rw [chunkText, dif_neg h]
    simp only [List.map_cons, List.flatten_cons, ih]
    have h1 : (s.take 1000).drop 200 = (s.drop 200).take 800 := by
      rw [List.drop_take]
    have h2 : (s.drop 800).drop 200 = (s.drop 200).drop 800 := by
      rw [List.drop_drop, List.drop_drop]
    rw [h1, h2, List.take_append_drop]

/-- C6: the 1000/200 sliding-window chunker covers the whole text with no
gaps — concatenating the windows with their 200-character overlaps removed
reconstructs the text exactly; every window is at most 1000 characters; and
every window but the final one is exactly the nominal 1000 characters. -/
theorem chunkText_spec (s : List Char) :
    reconstructChunks (chunkText s) = s ∧
    (∀ c ∈ chunkText s, c.length ≤ 1000) ∧
    (∀ c ∈ (chunkText s).dropLast, c.length = 1000) := by
  refine ⟨?_, ?_, ?_⟩
  · by_cases h : s.length ≤ 1000
    · rw [chunkText, dif_pos h]
      simp [reconstructChunks]
    · rw [chunkText, dif_neg h]
      show s.take 1000 ++ ((chunkText (s.drop 800)).map fun d => d.drop 200).flatten = s
      rw [flatten_drop200_chunkText]
      have h2 : (s.drop 800).drop 200 = s.drop 1000 := by
        rw [List.drop_drop]
      rw [h2, List.take_append_drop]
  · induction s using chunkText.induct with
    | case1 s h =>
      rw [chunkText, dif_pos h]
      intro c hc
      rw [List.mem_singleton] at hc
      exact hc ▸ h
    | case2 s h ih =>
      rw [chunkText, dif_neg h]
      intro c hc
      rcases List.mem_cons.mp hc with hc | hc
      · subst hc
        simp [List.length_take]
      · exact ih c hc
  · induction s using chunkText.induct with
    | case1 s h =>
      rw [chunkText, dif_pos h]
      simp
    | case2 s h ih =>
      rw [chunkText, dif_neg h]
      obtain ⟨y, ys, hy⟩ := List.exists_cons_of_ne_nil (chunkText_ne_nil (s.drop 800))
      rw [hy, List.dropLast_cons₂]
      intro c hc
      rcases List.mem_cons.mp hc with hc | hc
      · subst hc
        rw [List.length_take]
        omega
      · rw [← hy] at hc
        exact ih c hc

/-- Witness for C6 at a short concrete text: exact reconstruction and the
window bound on the one produced window. -/
theorem chunkText_spec_witness :
    reconstructChunks (chunkText ("premium policy".data)) = "premium policy".data ∧
    ("premium policy".data).length ≤ 1000 := by
  refine ⟨(chunkText_spec ("premium policy".data)).1,
    (chunkText_spec ("premium policy".data)).2.1 ("premium policy".data) ?_⟩
  rw [chunkText, dif_pos (by decide)]
  exact List.mem_singleton.mpr rfl

/-! ## C4: cosine similarity is symmetric, bounded and zero-safe -/

/-- The dot product is symmetric. -/
theorem dotList_comm (a b : List ℝ) : dotList a b = dotList b a := by
  unfold dotList
  rw [List.zipWith_comm_of_comm]
  exact fun x y => mul_comm x y

/-- The self dot product is the sum of squares. -/
theorem dotList_self_map (a : List ℝ) : dotList a a = (a.map fun x => x * x).sum := by
  induction a with
  | nil => rfl
  | cons x xs ih =>
    unfold dotList at ih ⊢
    simp [List.zipWith_cons_cons, ih]

/-- The self dot product is nonnegative. -/
theorem dotList_self_nonneg (a : List ℝ) : 0 ≤ dotList a a := by
  rw [dotList_self_map]
  apply List.sum_nonneg
  intro x hx
  obtain ⟨y, -, rfl⟩ := List.mem_map.mp hx
  exact mul_self_nonneg y

/-- The dot product as a finite sum over positions. -/
theorem dotList_eq_sum (a : List ℝ) :
    ∀ b : List ℝ, dotList a b =
      ∑ i ∈ Finset.range (min a.length b.length), a.getD i 0 * b.getD i 0 := by
  induction a with
  | nil => intro b; simp [dotList]
  | cons x xs ih =>
    intro b
    cases b with
    | nil => simp [dotList]
    | cons y ys =>
      unfold dotList
      rw [List.zipWith_cons_cons, List.sum_cons]
      show x * y + dotList xs ys = _
      rw [ih ys]
      rw [List.length_cons, List.length_cons, Nat.succ_min_succ, Finset.sum_range_succ']
      simp [List.getD_cons_succ, List.getD_cons_zero, add_comm]

/-- Cauchy–Schwarz for the list dot product at equal lengths. -/
theorem abs_dotList_le (a b : List ℝ) (h : a.length = b.length) :
    |dotList a b| ≤ Real.sqrt (dotList a a) * Real.sqrt (dotList b b) := by
  have ha : dotList a a = ∑ i ∈ Finset.range a.length, a.getD i 0 ^ 2 := by
    rw [dotList_eq_sum, min_self]
    exact Finset.sum_congr rfl fun i _ => (sq (a.getD i 0)).symm
  have hb : dotList b b = ∑ i ∈ Finset.range a.length, b.getD i 0 ^ 2 := by
    rw [dotList_eq_sum, min_self, ← h]
    exact Finset.sum_congr rfl fun i _ => (sq (b.getD i 0)).symm
  have hab : dotList a b = ∑ i ∈ Finset.range a.length, a.getD i 0 * b.getD i 0 := by
    rw [dotList_eq_sum, h, min_self, ← h]
  have upper := Real.sum_mul_le_sqrt_mul_sqrt (Finset.range a.length)
    (fun i => a.getD i 0) (fun i => b.getD i 0)
  have lower := Real.sum_mul_le_sqrt_mul_sqrt (Finset.range a.length)
    (fun i => -(a.getD i 0)) (fun i => b.getD i 0)
  rw [abs_le]
  constructor
  · rw [hab, ha, hb]
    have heq : (∑ i ∈ Finset.range a.length, -(a.getD i 0) * b.getD i 0) =
        -(∑ i ∈ Finset.range a.length, a.getD i 0 * b.getD i 0) := by
      rw [← Finset.sum_neg_distrib]
      exact Finset.sum_congr rfl fun i _ => neg_mul _ _
    have hsq : (∑ i ∈ Finset.range a.length, (-(a.getD i 0)) ^ 2) =
        ∑ i ∈ Finset.range a.length, a.getD i 0 ^ 2 :=
      Finset.sum_congr rfl fun i _ => neg_sq _
    rw [heq, hsq] at lower
    linarith
  · rw [hab, ha, hb]
    exact upper

/-- `cosineSimilarity` on a length mismatch. -/
theorem cosineSimilarity_of_ne_len {a b : List ℝ} (h : a.length ≠ b.length) :
    cosineSimilarity a b = 0 := by
  unfold cosineSimilarity
  rw [if_pos h]

/-- `cosineSimilarity` when a squared norm vanishes. -/
theorem cosineSimilarity_of_zero_norm {a b : List ℝ} (hlen : a.length = b.length)
    (h : dotList a a = 0 ∨ dotList b b = 0) : cosineSimilarity a b = 0 := by
  unfold cosineSimilarity
  rw [if_neg (fun hc => hc hlen), if_pos h]

/-- `cosineSimilarity` on the division branch. -/
theorem cosineSimilarity_of_pos {a b : List ℝ} (hlen : a.length = b.length)
    (h : ¬(dotList a a = 0 ∨ dotList b b = 0)) :
    cosineSimilarity a b =
      dotList a b / (Real.sqrt (dotList a a) * Real.sqrt (dotList b b)) := by
  unfold cosineSimilarity
  rw [if_neg (fun hc => hc hlen), if_neg h]

/-- C4: `cosineSimilarity` is symmetric, always lies in `[-1, 1]`, and is `0`
whenever either accumulated squared norm is `0` or the vector lengths differ;
being a total function with guarded division, it never divides by zero and
never throws. -/
theorem cosineSimilarity_claims (a b : List ℝ) :
    cosineSimilarity a b = cosineSimilarity b a ∧
    (-1 ≤ cosineSimilarity a b ∧ cosineSimilarity a b ≤ 1) ∧
    ((dotList a a = 0 ∨ dotList b b = 0 ∨ a.length ≠ b.length) →
      cosineSimilarity a b = 0) := by
  refine ⟨?_, ?_, ?_⟩
  · by_cases hl : a.length = b.length
    · by_cases hz : dotList a a = 0 ∨ dotList b b = 0
      · rw [cosineSimilarity_of_zero_norm hl hz,
          cosineSimilarity_of_zero_norm hl.symm (Or.symm hz)]
      · rw [cosineSimilarity_of_pos hl hz,
          cosineSimilarity_of_pos hl.symm (fun hc => hz (Or.symm hc))]
        rw [dotList_comm a b, mul_comm]
    · rw [cosineSimilarity_of_ne_len hl,
        cosineSimilarity_of_ne_len (fun hc => hl hc.symm)]
  · by_cases hl : a.length = b.length
    · by_cases hz : dotList a a = 0 ∨ dotList b b = 0
      · rw [cosineSimilarity_of_zero_norm hl hz]
        norm_num
      · rw [cosineSimilarity_of_pos hl hz]
        obtain ⟨hza, hzb⟩ := not_or.mp hz
        have hapos : 0 < dotList a a := lt_of_le_of_ne (dotList_self_nonneg a) (Ne.symm hza)
        have hbpos : 0 < dotList b b := lt_of_le_of_ne (dotList_self_nonneg b) (Ne.symm hzb)
        have hsa : 0 < Real.sqrt (dotList a a) := Real.sqrt_pos.mpr hapos
        have hsb : 0 < Real.sqrt (dotList b b) := Real.sqrt_pos.mpr hbpos
        have habs := abs_dotList_le a b hl
        rw [abs_le] at habs
        constructor
        · rw [le_div_iff (by positivity)]
          linarith [habs.1]
        · rw [div_le_one (by positivity)]
          exact habs.2
    · rw [cosineSimilarity_of_ne_len hl]
      norm_num
  · intro h
    by_cases hl : a.length = b.length
    · rcases h with h | h | h
      · exact cosineSimilarity_of_zero_norm hl (Or.inl h)
      · exact cosineSimilarity_of_zero_norm hl (Or.inr h)
      · exact absurd hl h
    · exact cosineSimilarity_of_ne_len hl

/-- Witness for C4: a zero vector and a length mismatch each give similarity
`0`. -/
theorem cosineSimilarity_claims_witness :
    cosineSimilarity [0, 0] [1, 2] = 0 ∧ cosineSimilarity [1] [1, 2] = 0 :=
  ⟨(cosineSimilarity_claims [0, 0] [1, 2]).2.2 (Or.inl (by simp [dotList])),
   (cosineSimilarity_claims [1] [1, 2]).2.2 (Or.inr (Or.inr (by simp)))⟩

/-! ## C5: self-retrieval from the in-memory index -/

/-- Inserting into the sorted list is a permutation of consing. -/
theorem insertDesc_perm (x : IndexedDoc × ℝ) (l : List (IndexedDoc × ℝ)) :
    List.Perm (insertDesc x l) (x :: l) := by
  induction l with
  | nil => rfl
  | cons y ys ih =>
    rw [insertDesc]
    split
    · exact List.Perm.refl _
    · exact (List.Perm.cons y ih).trans (List.Perm.swap x y ys)

/-- The stable descending sort permutes its input. -/
theorem sortDesc_perm (l : List (IndexedDoc × ℝ)) : List.Perm (sortDesc l) l := by
  induction l with
  | nil => rfl
  | cons x xs ih =>
    show List.Perm (insertDesc x (sortDesc xs)) (x :: xs)
    exact (insertDesc_perm x (sortDesc xs)).trans (List.Perm.cons x ih)

/-- C5 (counterexample): two indexed chunks share the text
`"heart surgery"` (metadata `mdA` then `mdB`); both score identically against
the query `"heart surgery"`, the stable sort keeps insertion order, and
`k = 1` keeps only the first — so the chunk with metadata `mdB`, although
indexed, is absent from `similaritySearch` of its own exact text at
`k = 1 ≥ 1`. -/
theorem similaritySearch_counterexample :
    (⟨"heart surgery", embedF ("heart surgery"), mdB⟩ : IndexedDoc) ∈ storeDup ∧
    similaritySearch embedF storeDup ("heart surgery") 1 =
      [⟨"heart surgery", mdA⟩] ∧
    (⟨"heart surgery", mdB⟩ : SearchResult) ∉
      similaritySearch embedF storeDup ("heart surgery") 1 := by
  have hsearch : similaritySearch embedF storeDup ("heart surgery") 1 =
      [⟨"heart surgery", mdA⟩] := by
    unfold similaritySearch storeDup addDocuments sortDesc
    simp only [List.nil_append, List.map_cons, List.map_nil, List.foldr_cons,
      List.foldr_nil]
    rw [insertDesc, insertDesc, if_pos le_rfl]
    rfl
  refine ⟨?_, hsearch, ?_⟩
  · unfold storeDup addDocuments
    simp
  · rw [hsearch]
    intro hmem
    rw [List.mem_singleton] at hmem
    have : mdB = mdA := congrArg SearchResult.metadata hmem
    exact absurd this (by decide)

/-- C5 (amended): every indexed chunk is returned by a search with its own
exact text whenever `k` is at least the number of indexed chunks — the sort
is a permutation of the scored records and `take k` then keeps all of them.
(For smaller `k` a tie, e.g. a duplicate text, can displace the chunk.) -/
theorem similaritySearch_contains_of_le (embed : String → List ℝ)
    (store : List IndexedDoc) (C : IndexedDoc) (k : Nat)
    (hC : C ∈ store) (hk : store.length ≤ k) :
    (⟨C.content, C.metadata⟩ : SearchResult) ∈
      similaritySearch embed store C.content k := by
  unfold similaritySearch
  have hperm : List.Perm
      (sortDesc (store.map fun d => (d, cosineSimilarity (embed C.content) d.embedding)))
      (store.map fun d => (d, cosineSimilarity (embed C.content) d.embedding)) :=
    sortDesc_perm _
  have hlen : (sortDesc (store.map fun d =>
      (d, cosineSimilarity (embed C.content) d.embedding))).length = store.length := by
    rw [hperm.length_eq, List.length_map]
  have htake : (sortDesc (store.map fun d =>
      (d, cosineSimilarity (embed C.content) d.embedding))).take k =
      sortDesc (store.map fun d => (d, cosineSimilarity (embed C.content) d.embedding)) :=
    List.take_of_length_le (by omega)
  rw [htake]
  have hmem : (C, cosineSimilarity (embed C.content) C.embedding) ∈
      store.map fun d => (d, cosineSimilarity (embed C.content) d.embedding) :=
    List.mem_map_of_mem _ hC
  exact List.mem_map.mpr ⟨_, hperm.mem_iff.mpr hmem, rfl⟩

/-- Witness for the amended C5: the one-chunk store returns its chunk for a
search with the chunk's own text at `k = 1`. -/
theorem similaritySearch_contains_of_le_witness :
    (⟨"policy text", (⟨"2", false, "uploads/f2"⟩ : DocMetadata)⟩ : SearchResult) ∈
      similaritySearch embedF storeDoc2 ("policy text") 1 :=
  similaritySearch_contains_of_le embedF storeDoc2
    ⟨"policy text", embedF ("policy text"), ⟨"2", false, "uploads/f2"⟩⟩ 1
    (by unfold storeDoc2 addDocuments; simp)
    (by unfold storeDoc2 addDocuments; simp)

end MedRAG
